import Mathlib

/-!
Verification of the interaction core of `mpd-remote`, shallowly embedded
from the Python source.  Strings of the source are modelled as `List Char`,
the regular-expression subset emitted by `vanity.py` gets an executable
compiler and matcher, and the stateful loops (dispatcher, menu, search
session, mute scope, speech cache) are modelled as explicit step functions
or traces of effects.
-/

namespace MpdRemote

/-! ## Vanity search engine (`src/mpd_remote/vanity.py`)

`REGEX_MAP` maps a keypad digit to its regex fragment, exactly as the
Python dictionary of the same name.  Characters outside the map are
skipped by the builders.
-/

def REGEX_MAP (c : Char) : Option (List Char) :=
  if c = '1' then some "/".toList
  else if c = '2' then some "[ABC]".toList
  else if c = '3' then some "[DEF]".toList
  else if c = '4' then some "[GHI]".toList
  else if c = '5' then some "[JKL]".toList
  else if c = '6' then some "[MNO]".toList
  else if c = '7' then some "[PQRS]".toList
  else if c = '8' then some "[TUV]".toList
  else if c = '9' then some "[WXYZ]".toList
  else if c = '0' then some ".".toList
  else none

/-- Loop state of `to_regex_linear`: the accumulated pattern string, the
previously processed character (`prev`) and the `has_slash` flag. -/
structure LinState where
  regex : List Char
  prev : Option Char
  has_slash : Bool
deriving DecidableEq

/-- One iteration of the `for char in numbers` loop of `to_regex_linear`:
characters outside `REGEX_MAP` are skipped; a `"0"` immediately after a
`"0"` appends `"*"`; otherwise the digit's fragment is appended. -/
def lin_step (st : LinState) (c : Char) : LinState :=
  match REGEX_MAP c with
  | none => st
  | some piece =>
    { regex := st.regex ++ (if c = '0' ∧ st.prev = some '0' then "*".toList else piece)
      prev := some c
      has_slash := st.has_slash || (c = '1') }

/-- The pattern string of `to_regex_linear` after the loop and the
suffix rule: append the `".*/"` artist suffix when no separator digit
was seen. -/
def lin_regex_presuffix (numbers : List Char) : List Char :=
  if (numbers.foldl lin_step ⟨[], none, false⟩).has_slash
  then (numbers.foldl lin_step ⟨[], none, false⟩).regex
  else (numbers.foldl lin_step ⟨[], none, false⟩).regex ++ ".*/".toList

/-- The pattern string built by `to_regex_linear(numbers, strict)`:
run the loop, apply the suffix rule, and prepend the `"^"` anchor in
strict mode unless the pattern starts with `"/"`. -/
def to_regex_linear (numbers : List Char) (strict : Bool) : List Char :=
  if strict && !((lin_regex_presuffix numbers).head? = some '/' : Bool)
  then '^' :: lin_regex_presuffix numbers
  else lin_regex_presuffix numbers

/-- Loop state of `to_regex_fuzzy`. -/
structure FuzState where
  regex : List Char
  has_slash : Bool
deriving DecidableEq

/-- One iteration of the `to_regex_fuzzy` loop: each mapped digit appends
its fragment followed by `".*"`; there is no doubled-zero collapsing. -/
def fuz_step (st : FuzState) (c : Char) : FuzState :=
  match REGEX_MAP c with
  | none => st
  | some piece =>
    { regex := st.regex ++ piece ++ ".*".toList
      has_slash := st.has_slash || (c = '1') }

/-- The pattern string built by `to_regex_fuzzy(numbers)`, with the `"/"`
suffix appended when no separator digit was seen. -/
def to_regex_fuzzy (numbers : List Char) : List Char :=
  let st := numbers.foldl fuz_step ⟨[], false⟩
  if st.has_slash then st.regex else st.regex ++ "/".toList

/-! ### Compiling the emitted pattern strings

The builders only emit the fragments of `REGEX_MAP`, the star `"*"`,
the suffixes `".*/"` and `"/"`, and the anchor `"^"`.  `regex_compile`
models Python's `re.compile` on exactly this subset: bracket classes,
the any-character dot, literal characters, the postfix star, and the
leading anchor.  A `"*"` that has no preceding unstarred atom is a
compile error (Python: "nothing to repeat" / "multiple repeat").
-/

inductive Atom where
  | dot : Atom
  | lit : Char → Atom
  | cls : List Char → Atom
deriving DecidableEq

inductive Tok where
  | tstar : Tok
  | tcaret : Tok
  | tatom : Atom → Tok
deriving DecidableEq

/-- Character scanner: `some acc` means we are inside a `[...]` class with
the (reversed) member characters collected so far. -/
def tokenizeAux : List Char → Option (List Char) → Except Unit (List Tok)
  | [], none => .ok []
  | [], some _ => .error ()
  | c :: rest, some acc =>
    if c = ']' then (fun ts => Tok.tatom (Atom.cls acc.reverse) :: ts) <$> tokenizeAux rest none
    else tokenizeAux rest (some (c :: acc))
  | c :: rest, none =>
    if c = '[' then tokenizeAux rest (some [])
    else if c = '*' then (fun ts => Tok.tstar :: ts) <$> tokenizeAux rest none
    else if c = '.' then (fun ts => Tok.tatom Atom.dot :: ts) <$> tokenizeAux rest none
    else if c = '^' then (fun ts => Tok.tcaret :: ts) <$> tokenizeAux rest none
    else (fun ts => Tok.tatom (Atom.lit c) :: ts) <$> tokenizeAux rest none

def tokenize (s : List Char) : Except Unit (List Tok) :=
  tokenizeAux s none

/-- Attach postfix stars to atoms.  The accumulator holds the atoms built
so far in reverse; a star may only follow an atom that is not already
starred, otherwise compilation fails (Python's "multiple repeat" and
"nothing to repeat" errors). -/
def resolveStars : List Tok → List (Atom × Bool) → Except Unit (List (Atom × Bool))
  | [], acc => .ok acc.reverse
  | Tok.tatom a :: r, acc => resolveStars r ((a, false) :: acc)
  | Tok.tstar :: r, (a, false) :: acc => resolveStars r ((a, true) :: acc)
  | Tok.tstar :: _, _ => .error ()
  | Tok.tcaret :: _, _ => .error ()

/-- A compiled pattern: an anchored flag and a sequence of possibly
starred atoms. -/
structure CRegex where
  anchored : Bool
  atoms : List (Atom × Bool)
deriving DecidableEq

/-- Model of `re.compile` on the emitted subset: a leading `"^"` sets the
anchored flag, everything else is a sequence of atoms with postfix stars. -/
def regex_compile (s : List Char) : Except Unit CRegex :=
  match tokenize s with
  | .error _ => .error ()
  | .ok (Tok.tcaret :: rest) => (fun as => CRegex.mk true as) <$> resolveStars rest []
  | .ok ts => (fun as => CRegex.mk false as) <$> resolveStars ts []

/-! ### Matching semantics (Python `re.search` with `re.IGNORECASE`) -/

/-- Case-insensitive single-character match: `.` matches everything except
a newline, a class matches any of its members. -/
def atom_matches (a : Atom) (c : Char) : Bool :=
  match a with
  | .dot => !(c = '\n' : Bool)
  | .lit d => c.toUpper = d.toUpper
  | .cls cs => cs.any fun d => d.toUpper = c.toUpper

/-- Backtracking matcher: does the atom sequence match some prefix of the
string?  The first argument is fuel; every recursive call decreases either
the string or the atom list, so `length s + length atoms + 1` fuel always
suffices. -/
def match_from : Nat → List (Atom × Bool) → List Char → Bool
  | 0, _, _ => false
  | _ + 1, [], _ => true
  | f + 1, (a, false) :: rest, s =>
    match s with
    | [] => false
    | c :: s' => atom_matches a c && match_from f rest s'
  | f + 1, (a, true) :: rest, s =>
    match_from f rest s ||
      (match s with
       | [] => false
       | c :: s' => atom_matches a c && match_from f ((a, true) :: rest) s')

/-- Model of `pattern.search(s)` as a Boolean: an anchored pattern must
match at the start, an unanchored one at some position. -/
def regex_search (r : CRegex) (s : List Char) : Bool :=
  let fuel := s.length + r.atoms.length + 1
  if r.anchored then match_from fuel r.atoms s
  else (List.range (s.length + 1)).any fun i => match_from fuel r.atoms (s.drop i)

/-- Compile a pattern string and search a key with it; an uncompilable
pattern matches nothing (in the source it raises instead). -/
def vanity_matches (pat : List Char) (s : List Char) : Bool :=
  match regex_compile pat with
  | .ok r => regex_search r s
  | .error _ => false

/-- Digits `0`–`9` as characters, for quantifying over digit sequences. -/
def digitChar (d : Fin 10) : Char :=
  Char.ofNat (48 + d.val)

/-! ## Mute scope (`MuteContext`, `src/mpd_remote/__init__.py` 100–139)

`__init__` snapshots the player status and sets `resume := False`;
`__enter__` pauses and records `resume := True` when the snapshot state is
`play`; `__exit__` runs exactly once — whether the body returned or raised
— and calls `play` when `resume` is set.  The body may re-snapshot the
status via `update()`, which never touches `resume`.
-/

inductive PlayerState where
  | play | pause | stop
deriving DecidableEq

inductive ApiCall where
  | pauseCall | playCall
deriving DecidableEq

structure MuteCtx where
  resume : Bool
  state : PlayerState
deriving DecidableEq

/-- `MuteContext.__init__`: `resume = False`, status snapshotted. -/
def MuteCtx.init (s : PlayerState) : MuteCtx :=
  ⟨false, s⟩

/-- `MuteContext.__enter__`: pause the player and record `resume` when the
snapshot says `play`; returns the updated context and the api calls made. -/
def MuteCtx.enter (c : MuteCtx) : MuteCtx × List ApiCall :=
  if c.state = .play then ({ c with resume := true }, [.pauseCall]) else (c, [])

/-- `MuteContext.__exit__`: call `play` exactly when `resume` is set. -/
def MuteCtx.exitCalls (c : MuteCtx) : List ApiCall :=
  if c.resume then [.playCall] else []

/-- How the enclosed interaction ends: it may re-snapshot the status
(`ctx.update()`) and it may either return normally or raise. -/
structure BodyRun where
  newState : Option PlayerState
  raises : Bool

/-- The api calls performed by the scope machinery itself around one
`with self.mute_context() as ctx:` block: enter calls, then — on every
exit path, normal or raising — the exit calls. -/
def mute_scope_calls (s : PlayerState) (b : BodyRun) : List ApiCall :=
  let c0 := MuteCtx.init s
  let ec := c0.enter
  let c2 := match b.newState with
    | some s' => { ec.1 with state := s' }
    | none => ec.1
  ec.2 ++ c2.exitCalls

/-! ## Speech cache (`Speech.prefetch`, `src/mpd_remote/speech.py` 37–63)

The synthesis backend is modelled as a pure function `synth` of the text
and the content hash as a function `hashFn` (the source uses an md5 hex
digest; the spec allows any deterministic digest).  The filesystem cache
is an association list from file name to audio bytes.  On a miss with
caching enabled the source synthesizes once into memory and then calls
`gtts.write_to_fp(file)` a second time to fill the cache file, so a miss
performs two backend invocations; a hit performs none.
-/

def cache_file (h : String) : String :=
  "tts/" ++ h ++ ".mp3"

/-- `Speech.prefetch`: returns the audio bytes, the updated cache
filesystem, and the number of synthesis-backend invocations performed.
`audio` is the object's memoized audio (`None` for a fresh object). -/
def Speech.prefetch {β : Type} (hashFn : String → String) (synth : String → β)
    (text : String) (audio : Option β) (cacheFlag : Bool)
    (fs : List (String × β)) : β × List (String × β) × Nat :=
  match audio with
  | some a => (a, fs, 0)
  | none =>
    let file := cache_file (hashFn text)
    match fs.lookup file with
    | some bytes => (bytes, fs, 0)
    | none =>
      if cacheFlag then (synth text, (file, synth text) :: fs, 2)
      else (synth text, fs, 1)

/-- Filesystem effects of one `prefetch` call, for the write-path claims:
the source opens the final cache file for writing directly; there is no
temporary file and no rename anywhere in `speech.py`. -/
inductive FsOp where
  | readFile : String → FsOp
  | mkdirCacheDir : FsOp
  | writeFile : String → FsOp
  | renameFile : String → String → FsOp
deriving DecidableEq

def FsOp.isRename : FsOp → Bool
  | .renameFile _ _ => true
  | _ => false

/-- The filesystem operations performed by `Speech.prefetch` on a fresh
object, as a function of whether the cache file and the cache directory
already exist and of the `cache` flag. -/
def prefetch_fsops (h : String) (fileExists dirExists cacheFlag : Bool) : List FsOp :=
  if fileExists then [.readFile (cache_file h)]
  else if cacheFlag then
    (if !dirExists then [FsOp.mkdirCacheDir] else []) ++ [FsOp.writeFile (cache_file h)]
  else []

/-! ## Input dispatcher (`Remote.listen_stdin`, `src/mpd_remote/__init__.py` 156–169)

The loop body is: read one event; exit on an exit key; otherwise invoke
the bound action **without any try/except** — an exception raised by the
action propagates and terminates the loop; unbound events are only
logged.  The second component counts "an error occurred" narrations
spoken by the dispatcher itself; no code path produces one.
-/

inductive ActionSpec where
  | succeeds | raises
deriving DecidableEq

/-- `key.CTRL_C` and `key.CTRL_D` from `readchar`. -/
def EXIT_KEYS : List Char :=
  [Char.ofNat 3, Char.ofNat 4]

inductive LoopExit where
  | goodbye | crashed | inputExhausted
deriving DecidableEq

/-- `Remote.listen_stdin` over a finite event trace: returns how the loop
ended and how many error narrations the dispatcher spoke. -/
def listen_stdin (acts : Char → Option ActionSpec) : List Char → LoopExit × Nat
  | [] => (.inputExhausted, 0)
  | c :: rest =>
    if c ∈ EXIT_KEYS then (.goodbye, 0)
    else
      match acts c with
      | some .raises => (.crashed, 0)
      | some .succeeds => listen_stdin acts rest
      | none => listen_stdin acts rest

/-! ## Menu state machine (`Remote.navigate_menu`, `src/mpd_remote/__init__.py` 207–249)

One iteration of the navigation loop, as a function of the menu length,
the current index and the classified input event.  Down and up wrap with
Python's `%` (mathematical modulus); back-class events exit; enter
invokes the entry and either stays (action returned truthy) or exits. -/

inductive MenuEvent where
  | back | down | up | enter (remain : Bool) | other
deriving DecidableEq

inductive NavOut where
  | exited : NavOut
  | at : Int → NavOut
deriving DecidableEq

def navigate_menu_step (n : Nat) (i : Int) : MenuEvent → NavOut
  | .back => .exited
  | .down => .at ((i + 1) % (n : Int))
  | .up => .at ((i - 1) % (n : Int))
  | .enter remain => if remain then .at i else .exited
  | .other => .at i

/-- Iterate `k` down events through `navigate_menu_step`. -/
def menu_down_iter (n : Nat) : Nat → Int → Int
  | 0, i => i
  | k + 1, i =>
    match navigate_menu_step n i .down with
    | .at j => menu_down_iter n k j
    | .exited => i

/-! ## Search session (`DenonRC1223.down`, `src/mpd_remote/remotes.py` 367–464)

The session state: the materialized `results`, the lazy `generator`
(`none` before the first search, `some l` with the remaining matches
afterwards — an empty `l` raises `StopIteration` on `next`), and the
cursor `index` (a Python int; `-1` means no selection yet).
-/

structure SearchCtx (α : Type) where
  results : List α
  generator : Option (List α)
  index : Int
deriving DecidableEq

/-- `extend_results`: pull one element from the generator, append it and
advance the cursor; on `StopIteration` (or no generator) do nothing. -/
def extend_results {α : Type} (c : SearchCtx α) : SearchCtx α :=
  match c.generator with
  | none => c
  | some [] => c
  | some (x :: rest) => ⟨c.results ++ [x], some rest, c.index + 1⟩

/-- The `key.DOWN` branch of the search loop (`remotes.py` 445–450). -/
def search_down_step {α : Type} (c : SearchCtx α) : SearchCtx α :=
  if c.index + 1 ≥ (c.results.length : Int) then extend_results c
  else { c with index := c.index + 1 }

/-- The `key.UP` branch of the search loop (`remotes.py` 451–454). -/
def search_up_step {α : Type} (c : SearchCtx α) : SearchCtx α :=
  if c.index > 0 then { c with index := c.index - 1 } else c

/-- Python list subscription `l[i]` with negative-index support: a
negative index is offset by the length; out of range raises `IndexError`. -/
def list_getitem {α : Type} (l : List α) (i : Int) : Except Unit α :=
  let j := if i < 0 then i + (l.length : Int) else i
  if 0 ≤ j then
    match l.get? j.toNat with
    | some a => .ok a
    | none => .error ()
  else .error ()

/-- The enter-class branch of the search loop (`remotes.py` 455–458):
`play = ctx.results[ctx.index]`. -/
def search_enter_step {α : Type} (c : SearchCtx α) : Except Unit α :=
  list_getitem c.results c.index

/-! ## Auxiliary development for the vanity-pattern proofs

`ulin_step` is the loop of `to_regex_linear` with the accumulated string
broken into the units appended by each iteration (one `REGEX_MAP`
fragment or one `"*"` per mapped character); its flattening is exactly
the string the source builds, which lets the tokenizer be analysed one
complete unit at a time. -/

structure ULinState where
  units : List (List Char)
  prev : Option Char
  has_slash : Bool

/-- Unit-level version of `lin_step`: appends one unit per mapped char. -/
def ulin_step (st : ULinState) (c : Char) : ULinState :=
  match REGEX_MAP c with
  | none => st
  | some piece =>
    { units := st.units ++ [if c = '0' ∧ st.prev = some '0' then "*".toList else piece]
      prev := some c
      has_slash := st.has_slash || (c = '1') }

/-- Every string fragment the builders can append: the `REGEX_MAP`
values, the star, and the `".*/"` suffix and `"^"` anchor pieces. -/
def UNIT_LIST : List (List Char) :=
  ["/".toList, "[ABC]".toList, "[DEF]".toList, "[GHI]".toList, "[JKL]".toList,
   "[MNO]".toList, "[PQRS]".toList, "[TUV]".toList, "[WXYZ]".toList,
   ".".toList, "*".toList, "^".toList]

/-- The single token a complete unit tokenizes to. -/
def unitTok (u : List Char) : Tok :=
  match tokenize u with
  | .ok [t] => t
  | _ => Tok.tcaret

end MpdRemote

namespace MpdRemote

theorem rm0 : REGEX_MAP '0' = some ['.'] := rfl

set_option maxHeartbeats 1600000 in
theorem regex_map_mem_units (c : Char) (piece : List Char)
    (h : REGEX_MAP c = some piece) : piece ∈ UNIT_LIST := by
  unfold REGEX_MAP at h
  split_ifs at h <;> cases h
  · exact List.Mem.head _
  · exact List.Mem.tail _ (List.Mem.head _)
  · exact List.Mem.tail _ (List.Mem.tail _ (List.Mem.head _))
  · exact List.Mem.tail _ (List.Mem.tail _ (List.Mem.tail _ (List.Mem.head _)))
  · exact List.Mem.tail _ (List.Mem.tail _ (List.Mem.tail _ (List.Mem.tail _ (List.Mem.head _))))
  · exact List.Mem.tail _ (List.Mem.tail _ (List.Mem.tail _ (List.Mem.tail _ (List.Mem.tail _
      (List.Mem.head _)))))
  · exact List.Mem.tail _ (List.Mem.tail _ (List.Mem.tail _ (List.Mem.tail _ (List.Mem.tail _
      (List.Mem.tail _ (List.Mem.head _))))))
  · exact List.Mem.tail _ (List.Mem.tail _ (List.Mem.tail _ (List.Mem.tail _ (List.Mem.tail _
      (List.Mem.tail _ (List.Mem.tail _ (List.Mem.head _)))))))
  · exact List.Mem.tail _ (List.Mem.tail _ (List.Mem.tail _ (List.Mem.tail _ (List.Mem.tail _
      (List.Mem.tail _ (List.Mem.tail _ (List.Mem.tail _ (List.Mem.head _))))))))
  · exact List.Mem.tail _ (List.Mem.tail _ (List.Mem.tail _ (List.Mem.tail _ (List.Mem.tail _
      (List.Mem.tail _ (List.Mem.tail _ (List.Mem.tail _ (List.Mem.tail _ (List.Mem.head _)))))))))

theorem star_mem_units : "*".toList ∈ UNIT_LIST := by decide

theorem caret_mem_units : "^".toList ∈ UNIT_LIST := by decide

theorem dot_mem_units : ".".toList ∈ UNIT_LIST := by decide

theorem slash_mem_units : "/".toList ∈ UNIT_LIST := by decide

theorem ulin_step_zero (st : ULinState) :
    ulin_step st '0' =
      { units := st.units ++ [if st.prev = some '0' then "*".toList else ".".toList]
        prev := some '0'
        has_slash := st.has_slash } := by
  unfold ulin_step
  rw [rm0]
  by_cases h : st.prev = some '0'
  · simp [h]
  · simp [h]

theorem tok_unit (u : List Char) (hu : u ∈ UNIT_LIST) (rest : List Char) :
    tokenizeAux (u ++ rest) none = (fun ts => unitTok u :: ts) <$> tokenizeAux rest none := by
  fin_cases hu <;> rfl

theorem tok_flatten (us : List (List Char)) (h : ∀ u ∈ us, u ∈ UNIT_LIST) :
    tokenize us.flatten = .ok (us.map unitTok) := by
  induction us with
  | nil => rfl
  | cons u us ih =>
    have h1 : u ∈ UNIT_LIST := h u (by simp)
    have h2 : ∀ v ∈ us, v ∈ UNIT_LIST := fun v hv => h v (by simp [hv])
    show tokenizeAux ((u :: us).flatten) none = _
    rw [List.flatten_cons]
    rw [tok_unit u h1]
    show (fun ts => unitTok u :: ts) <$> tokenize us.flatten = _
    rw [ih h2]
    rfl

theorem resolve_star_star (T2 : List Tok) :
    ∀ (T1 : List Tok) (acc : List (Atom × Bool)),
      resolveStars (T1 ++ Tok.tstar :: Tok.tstar :: T2) acc = .error () := by
  intro T1
  induction T1 with
  | nil =>
    intro acc
    match acc with
    | [] => rfl
    | (a, false) :: acc' => rfl
    | (a, true) :: acc' => rfl
  | cons t T1 ih =>
    intro acc
    match t with
    | Tok.tatom a => exact ih ((a, false) :: acc)
    | Tok.tcaret => rfl
    | Tok.tstar =>
      match acc with
      | [] => rfl
      | (a, false) :: acc' => exact ih ((a, true) :: acc')
      | (a, true) :: acc' => rfl

theorem compile_of_tokens_star_star (s : List Char) (M1 M2 : List Tok)
    (htok : tokenize s = .ok (M1 ++ Tok.tstar :: Tok.tstar :: M2)) :
    regex_compile s = .error () := by
  unfold regex_compile
  rw [htok]
  match M1 with
  | [] =>
    show Except.map (fun as => CRegex.mk false as)
      (resolveStars (Tok.tstar :: Tok.tstar :: M2) []) = _
    have h := resolve_star_star M2 [] []
    rw [List.nil_append] at h
    rw [h]
    rfl
  | Tok.tcaret :: M1' =>
    show Except.map (fun as => CRegex.mk true as)
      (resolveStars (M1' ++ Tok.tstar :: Tok.tstar :: M2) []) = _
    rw [resolve_star_star M2 M1' []]
    rfl
  | Tok.tstar :: M1' =>
    show Except.map (fun as => CRegex.mk false as)
      (resolveStars ((Tok.tstar :: M1') ++ Tok.tstar :: Tok.tstar :: M2) []) = _
    rw [resolve_star_star M2 (Tok.tstar :: M1') []]
    rfl
  | Tok.tatom a :: M1' =>
    show Except.map (fun as => CRegex.mk false as)
      (resolveStars ((Tok.tatom a :: M1') ++ Tok.tstar :: Tok.tstar :: M2) []) = _
    rw [resolve_star_star M2 (Tok.tatom a :: M1') []]
    rfl

theorem lin_ulin_rel (l : List Char) :
    ∀ (st : LinState) (ust : ULinState),
      st.regex = ust.units.flatten → st.prev = ust.prev → st.has_slash = ust.has_slash →
      (l.foldl lin_step st).regex = (l.foldl ulin_step ust).units.flatten ∧
      (l.foldl lin_step st).prev = (l.foldl ulin_step ust).prev ∧
      (l.foldl lin_step st).has_slash = (l.foldl ulin_step ust).has_slash := by
  induction l with
  | nil => intro st ust h1 h2 h3; exact ⟨h1, h2, h3⟩
  | cons c l ih =>
    intro st ust h1 h2 h3
    rw [List.foldl_cons, List.foldl_cons]
    apply ih <;> (unfold lin_step ulin_step; cases REGEX_MAP c)
    · exact h1
    · simp only [List.flatten_append, List.flatten_cons, List.flatten_nil,
        List.append_nil, h1, h2]
    · exact h2
    · rfl
    · exact h3
    · simp [h3]

theorem ulin_foldl_units (l : List Char) :
    ∀ ust : ULinState, ∃ t, (l.foldl ulin_step ust).units = ust.units ++ t := by
  induction l with
  | nil => intro ust; exact ⟨[], by simp⟩
  | cons c l ih =>
    intro ust
    obtain ⟨t, ht⟩ := ih (ulin_step ust c)
    rw [List.foldl_cons, ht]
    unfold ulin_step
    cases REGEX_MAP c with
    | none => exact ⟨t, rfl⟩
    | some piece => exact ⟨_, by rw [List.append_assoc]⟩

theorem ulin_foldl_mem (l : List Char) :
    ∀ ust : ULinState, (∀ u ∈ ust.units, u ∈ UNIT_LIST) →
      ∀ u ∈ (l.foldl ulin_step ust).units, u ∈ UNIT_LIST := by
  induction l with
  | nil => intro ust h; exact h
  | cons c l ih =>
    intro ust h
    rw [List.foldl_cons]
    apply ih
    intro u hu
    unfold ulin_step at hu
    cases hm : REGEX_MAP c with
    | none => rw [hm] at hu; exact h u hu
    | some piece =>
      rw [hm] at hu
      simp only [List.mem_append, List.mem_singleton] at hu
      rcases hu with hu | hu
      · exact h u hu
      · subst hu
        by_cases hc : c = '0' ∧ ust.prev = some '0'
        · rw [if_pos hc]
          exact star_mem_units
        · rw [if_neg hc]
          exact regex_map_mem_units c piece hm

theorem compile_flatten_star_star (us1 us2 : List (List Char))
    (h1 : ∀ u ∈ us1, u ∈ UNIT_LIST) (h2 : ∀ u ∈ us2, u ∈ UNIT_LIST) :
    regex_compile ((us1 ++ "*".toList :: "*".toList :: us2).flatten) = .error () := by
  have hall : ∀ u ∈ us1 ++ "*".toList :: "*".toList :: us2, u ∈ UNIT_LIST := by
    intro u hu
    rcases List.mem_append.mp hu with hu | hu
    · exact h1 u hu
    · simp only [List.mem_cons] at hu
      rcases hu with rfl | rfl | hu
      · exact star_mem_units
      · exact star_mem_units
      · exact h2 u hu
  have htok := tok_flatten _ hall
  rw [List.map_append, List.map_cons, List.map_cons] at htok
  have hut : unitTok "*".toList = Tok.tstar := rfl
  rw [hut] at htok
  exact compile_of_tokens_star_star _ _ _ htok

theorem caret_singleton_mem : ∀ u ∈ (["^".toList] : List (List Char)), u ∈ UNIT_LIST := by
  intro u hu
  simp only [List.mem_singleton] at hu
  subst hu
  exact caret_mem_units

theorem suffix_units_mem :
    ∀ u ∈ ([".".toList, "*".toList, "/".toList] : List (List Char)), u ∈ UNIT_LIST := by
  intro u hu
  simp only [List.mem_cons] at hu
  rcases hu with rfl | rfl | rfl | hu
  · exact dot_mem_units
  · exact star_mem_units
  · exact slash_mem_units
  · cases hu

theorem to_regex_linear_flatten (numbers : List Char) (strict : Bool) :
    ∃ pre post : List (List Char),
      (∀ u ∈ pre, u ∈ UNIT_LIST) ∧ (∀ u ∈ post, u ∈ UNIT_LIST) ∧
      to_regex_linear numbers strict =
        (pre ++ (numbers.foldl ulin_step ⟨[], none, false⟩).units ++ post).flatten := by
  obtain ⟨hre, hpr, hhs⟩ := lin_ulin_rel numbers ⟨[], none, false⟩ ⟨[], none, false⟩ rfl rfl rfl
  have hshape : to_regex_linear numbers strict = lin_regex_presuffix numbers ∨
      to_regex_linear numbers strict = '^' :: lin_regex_presuffix numbers := by
    unfold to_regex_linear
    split
    · exact Or.inr rfl
    · exact Or.inl rfl
  unfold lin_regex_presuffix at hshape
  by_cases hs : (numbers.foldl lin_step ⟨[], none, false⟩).has_slash
  · rw [if_pos hs] at hshape
    rcases hshape with heq | heq
    · exact ⟨[], [], by simp, by simp, by rw [heq, hre]; simp⟩
    · exact ⟨["^".toList], [], caret_singleton_mem, by simp, by rw [heq, hre]; simp⟩
  · rw [if_neg hs] at hshape
    rcases hshape with heq | heq
    · exact ⟨[], [".".toList, "*".toList, "/".toList], by simp, suffix_units_mem,
        by rw [heq, hre]; simp⟩
    · exact ⟨["^".toList], [".".toList, "*".toList, "/".toList], caret_singleton_mem,
        suffix_units_mem, by rw [heq, hre]; simp⟩

theorem lin_step_regex (st : LinState) (c : Char) :
    ∃ e, (lin_step st c).regex = st.regex ++ e := by
  unfold lin_step
  cases REGEX_MAP c with
  | none => exact ⟨[], by simp⟩
  | some piece => exact ⟨_, rfl⟩

theorem lin_foldl_regex (l : List Char) :
    ∀ st : LinState, ∃ t, (l.foldl lin_step st).regex = st.regex ++ t := by
  induction l with
  | nil => intro st; exact ⟨[], by simp⟩
  | cons c l ih =>
    intro st
    obtain ⟨e, he⟩ := lin_step_regex st c
    obtain ⟨t, ht⟩ := ih (lin_step st c)
    exact ⟨e ++ t, by rw [List.foldl_cons, ht, he, List.append_assoc]⟩

theorem to_regex_linear_head_cons (c : Char) (p0 : Char) (ps : List Char) (rest : List Char)
    (hm : REGEX_MAP c = some (p0 :: ps)) :
    (to_regex_linear (c :: rest) false).head? = some p0 ∧
    (to_regex_linear (c :: rest) true).head? =
      (if p0 = '/' then some p0 else some '^') := by
  have hstep : (lin_step ⟨[], none, false⟩ c).regex = p0 :: ps := by
    unfold lin_step
    rw [hm]
    simp
  obtain ⟨t, ht⟩ := lin_foldl_regex rest (lin_step ⟨[], none, false⟩ c)
  rw [hstep] at ht
  have hr1 : (lin_regex_presuffix (c :: rest)).head? = some p0 := by
    unfold lin_regex_presuffix
    rw [List.foldl_cons]
    set st := List.foldl lin_step (lin_step ⟨[], none, false⟩ c) rest with hstdef
    by_cases hs : st.has_slash <;> simp [hs, ht]
  constructor
  · unfold to_regex_linear
    simpa using hr1
  · unfold to_regex_linear
    by_cases hp0 : p0 = '/'
    · subst hp0
      simp [hr1]
    · simp [hr1, hp0]

theorem regex_map_digit_head (d : Fin 10) :
    ∃ p0 ps, REGEX_MAP (digitChar d) = some (p0 :: ps) ∧ ((p0 = '/') ↔ d = 1) ∧ p0 ≠ '^' := by
  fin_cases d <;> exact ⟨_, _, rfl, by decide, by decide⟩

theorem menu_down_iter_succ_mod (n : Nat) :
    ∀ (k : Nat) (i : Int), menu_down_iter n (k + 1) i = (i + k + 1) % (n : Int) := by
  intro k
  induction k with
  | zero => intro i; simp [menu_down_iter, navigate_menu_step]
  | succ m ih =>
    intro i
    show menu_down_iter n (m + 1) ((i + 1) % (n : Int)) = _
    rw [ih ((i + 1) % (n : Int))]
    rw [show ((i + 1) % (n : Int) + (m : Int) + 1)
        = ((i + 1) % (n : Int) + ((m : Int) + 1)) by ring]
    rw [Int.emod_add_emod]
    push_cast
    ring_nf

/-! ## The claims -/

/-- C1: the spec says `listen_stdin` catches failures raised by a bound
action, speaks one "an error occurred" message and keeps looping.  The
source (`__init__.py` 156–169) invokes `self._actions[char]()` with no
`try`/`except`: this evaluation shows that on the event sequence
`['x', 'y']`, with `'x'` bound to a raising action and `'y'` to a sound
one, the loop terminates exceptionally at `'x'` with zero error
narrations spoken and never dispatches `'y'` — yet `remotes.py` line 198
prefetches the very narration "Sorry, an error occurred." that no code
path ever speaks, so the catch was clearly intended. -/
theorem listen_stdin_action_failure_uncaught :
    listen_stdin
      (fun c => if c = 'x' then some .raises else if c = 'y' then some .succeeds else none)
      ['x', 'y'] = (.crashed, 0) := by decide

/-- C2 counterexample: the claim says every mode (strict, linear and
fuzzy) collapses a doubled `"0"` into one unanchored multi-character
wildcard.  In fuzzy mode no collapse happens: each `"0"` emits `"..*"`,
so `"00"` yields `"..*..*/"`, which behaves as two single-character
wildcards — it cannot match the key `"a/"` whose segment has only one
character, while the collapsed single-wildcard pattern `".*/"` matches
it.  The claim's own example also fails: no mode's pattern for `"00"`
matches the bare segment `"abXYZcd"`, because every derived pattern
demands a following `"/"`. -/
theorem vanity_double_zero_fuzzy_not_collapsed :
    to_regex_fuzzy "00".toList = "..*..*/".toList ∧
    vanity_matches (to_regex_fuzzy "00".toList) "a/".toList = false ∧
    vanity_matches ".*/".toList "a/".toList = true ∧
    vanity_matches (to_regex_linear "00".toList false) "abXYZcd".toList = false := by decide

/-- C2 amended: in strict and linear modes a doubled `"0"` collapses to
the single unanchored wildcard token `".*"` (patterns `".*.*/"` and
`"^.*.*/"`), and those patterns match the key `"abXYZcd/x"` whose first
segment is `"abXYZcd"`; in fuzzy mode each `"0"` emits its own
one-character wildcard plus `".*"` (pattern `"..*..*/"`), which requires
at least two characters before a separator and so fails on `"a/"`. -/
theorem vanity_double_zero_collapse_amended :
    to_regex_linear "00".toList false = ".*.*/".toList ∧
    to_regex_linear "00".toList true = "^.*.*/".toList ∧
    vanity_matches (to_regex_linear "00".toList false) "abXYZcd/x".toList = true ∧
    vanity_matches (to_regex_linear "00".toList true) "abXYZcd/x".toList = true ∧
    vanity_matches (to_regex_fuzzy "00".toList) "abXYZcd/x".toList = true ∧
    vanity_matches (to_regex_fuzzy "00".toList) "a/".toList = false := by decide

/-- C3 counterexample: the claim says a cache miss writes the audio to a
temporary path and atomically renames it onto the key's file.  The trace
of `Speech.prefetch` on a miss (file absent, directory absent, caching
on) contains no rename operation at all and writes directly at the final
key path. -/
theorem speech_cache_write_no_rename :
    ((prefetch_fsops "abc" false false true).all fun op => !op.isRename) = true ∧
    FsOp.writeFile (cache_file "abc") ∈ prefetch_fsops "abc" false false true := by decide

/-- C3 amended: on a cache miss with caching enabled, `Speech.prefetch`
creates the cache directory if needed and then opens the final key file
itself for writing (`self.file.open("wb")`); no temporary path and no
rename are ever used, so a partially written file can exist at the key
path after a crash. -/
theorem speech_cache_writes_final_path_directly (h : String) (dirExists : Bool) :
    prefetch_fsops h false dirExists true =
      (if dirExists then [FsOp.writeFile (cache_file h)]
       else [FsOp.mkdirCacheDir, FsOp.writeFile (cache_file h)]) ∧
    (∀ fe de cf : Bool,
      ((prefetch_fsops h fe de cf).all fun op => !op.isRename) = true) := by
  constructor
  · cases dirExists <;> simp [prefetch_fsops]
  · intro fe de cf
    cases fe <;> cases de <;> cases cf <;> simp [prefetch_fsops, FsOp.isRename]

/-- C4: for every snapshotted player state and every way the enclosed
interaction ends (normal return or raised failure, with or without an
intervening `update()` re-snapshot), exiting the mute scope performs
exactly one `play` (resume) call when the creation snapshot was `play`,
and zero when it was `pause` or `stop`. -/
theorem mute_scope_resume_exactly_once (s : PlayerState) (b : BodyRun) :
    (mute_scope_calls s b).count ApiCall.playCall = if s = .play then 1 else 0 := by
  obtain ⟨ns, r⟩ := b
  cases s <;> cases ns <;>
    simp [mute_scope_calls, MuteCtx.init, MuteCtx.enter, MuteCtx.exitCalls]

/-- C5: for every digit sequence `D`, the strict-mode pattern begins
with the `"^"` start anchor exactly when `D` does not begin with the
path-separator digit `1`, and the linear-mode pattern never begins with
the anchor. -/
theorem strict_anchor_iff_not_leading_separator (D : List (Fin 10)) :
    ((to_regex_linear (D.map digitChar) true).head? = some '^' ↔ D.head? ≠ some 1) ∧
    (to_regex_linear (D.map digitChar) false).head? ≠ some '^' := by
  cases D with
  | nil => exact ⟨by decide, by decide⟩
  | cons d rest =>
    obtain ⟨p0, ps, hm, hp, hpc⟩ := regex_map_digit_head d
    rw [List.map_cons]
    obtain ⟨h1, h2⟩ := to_regex_linear_head_cons (digitChar d) p0 ps (rest.map digitChar) hm
    constructor
    · rw [h2]
      by_cases hd : p0 = '/'
      · have hd1 : d = 1 := hp.mp hd
        simp [hd, hd1]
      · have hd1 : ¬ d = 1 := fun h => hd (hp.mpr h)
        simp [hd, hd1]
    · rw [h1]
      simp [hpc]

/-- C6: with the synthesis backend a pure function of the text and the
hash any deterministic digest, prefetching the same text twice with
caching enabled (fresh `Speech` objects, second call on the filesystem
left by the first) returns byte-identical audio, the second call
performs zero synthesis-backend invocations, and starting from an empty
cache the first call persists the entry `synth text` under the text's
hash key. -/
theorem speech_cache_second_call_cached {β : Type} (hashFn : String → String)
    (synth : String → β) (t : String) (fs0 : List (String × β)) :
    (Speech.prefetch hashFn synth t none true fs0).1 =
      (Speech.prefetch hashFn synth t none true
        (Speech.prefetch hashFn synth t none true fs0).2.1).1 ∧
    (Speech.prefetch hashFn synth t none true
        (Speech.prefetch hashFn synth t none true fs0).2.1).2.2 = 0 ∧
    (Speech.prefetch hashFn synth t none true []).2.1.lookup (cache_file (hashFn t))
      = some (synth t) := by
  refine ⟨?_, ?_, ?_⟩ <;>
  · cases h : (fs0.lookup (cache_file (hashFn t))) <;>
      simp [Speech.prefetch, h, List.lookup]

/-- C7: in a menu of length `n ≥ 1`, `n` consecutive down events from
index 0 return to index 0, one up event from index 0 lands on `n − 1`,
and a directional event always continues at an index in `[0, n)` — it
never exits the menu. -/
theorem navigate_menu_wraparound (n : Nat) (hn : 1 ≤ n) :
    menu_down_iter n n 0 = 0 ∧
    navigate_menu_step n 0 .up = .at ((n : Int) - 1) ∧
    (∀ (i : Int) (e : MenuEvent), e = .down ∨ e = .up →
      ∃ j, navigate_menu_step n i e = .at j ∧ 0 ≤ j ∧ j < (n : Int)) := by
  have hn0 : (0 : Int) < (n : Int) := by exact_mod_cast hn
  refine ⟨?_, ?_, ?_⟩
  · obtain ⟨m, rfl⟩ : ∃ m, n = m + 1 := ⟨n - 1, by omega⟩
    rw [menu_down_iter_succ_mod]
    push_cast
    rw [show ((0 : Int) + m + 1) = ((m : Int) + 1) by ring]
    exact Int.emod_self
  · show NavOut.at ((0 - 1) % (n : Int)) = NavOut.at ((n : Int) - 1)
    have h2 : ((0 : Int) - 1) % (n : Int) = (n : Int) - 1 := by
      have h1 : ((0 : Int) - 1) % (n : Int) = ((-1 : Int) + (n : Int) * 1) % (n : Int) := by
        rw [Int.add_mul_emod_self_left]
        norm_num
      rw [h1, Int.emod_eq_of_lt (by omega) (by omega)]
      ring
    rw [h2]
  · intro i e he
    rcases he with rfl | rfl
    · exact ⟨(i + 1) % (n : Int), rfl, Int.emod_nonneg _ (by omega),
        Int.emod_lt_of_pos _ hn0⟩
    · exact ⟨(i - 1) % (n : Int), rfl, Int.emod_nonneg _ (by omega),
        Int.emod_lt_of_pos _ hn0⟩

/-- Witness for C7 at the concrete menu length 3. -/
theorem navigate_menu_wraparound_witness :
    1 ≤ 3 ∧ menu_down_iter 3 3 0 = 0 ∧ navigate_menu_step 3 0 .up = .at 2 := by
  refine ⟨by decide, (navigate_menu_wraparound 3 (by decide)).1, ?_⟩
  have h := (navigate_menu_wraparound 3 (by decide)).2.1
  norm_num at h
  exact h

/-- C8: a down event with the cursor at the end of the materialized list
pulls exactly one element from the generator and advances the cursor by
one, or leaves the whole state unchanged when the generator is absent or
exhausted; a down event with the cursor not at the end only advances the
cursor; an up event never touches the materialized list or the
generator. -/
theorem search_down_pull_one_up_no_consume {α : Type} (c : SearchCtx α) :
    (∀ x rest, c.generator = some (x :: rest) → c.index + 1 = (c.results.length : Int) →
      search_down_step c = ⟨c.results ++ [x], some rest, c.index + 1⟩) ∧
    (c.index + 1 ≥ (c.results.length : Int) → (c.generator = none ∨ c.generator = some []) →
      search_down_step c = c) ∧
    (c.index + 1 < (c.results.length : Int) →
      search_down_step c = { c with index := c.index + 1 }) ∧
    ((search_up_step c).results = c.results ∧ (search_up_step c).generator = c.generator) := by
  refine ⟨?_, ?_, ?_, ?_⟩
  · intro x rest hg hi
    simp [search_down_step, if_pos (le_of_eq hi.symm), extend_results, hg]
  · intro hi hg
    rcases hg with hg | hg <;> simp [search_down_step, if_pos hi, extend_results, hg]
  · intro hi
    simp [search_down_step, if_neg (not_le.mpr hi)]
  · unfold search_up_step
    by_cases h : c.index > 0 <;> simp [h]

/-- Witness for C8 on concrete search states. -/
theorem search_down_pull_one_up_no_consume_witness :
    search_down_step (⟨[5], some [7], 0⟩ : SearchCtx Nat) = ⟨[5, 7], some [], 1⟩ ∧
    search_down_step (⟨[5], none, 0⟩ : SearchCtx Nat) = ⟨[5], none, 0⟩ ∧
    search_down_step (⟨[5, 7], some [9], 0⟩ : SearchCtx Nat) = ⟨[5, 7], some [9], 1⟩ ∧
    (search_up_step (⟨[5, 7], some [9], 1⟩ : SearchCtx Nat)).results = [5, 7] := by
  refine ⟨?_, ?_, ?_, ?_⟩
  · exact (search_down_pull_one_up_no_consume _).1 7 [] rfl (by decide)
  · exact (search_down_pull_one_up_no_consume _).2.1 (by decide) (Or.inl rfl)
  · exact (search_down_pull_one_up_no_consume
      (⟨[5, 7], some [9], 0⟩ : SearchCtx Nat)).2.2.1 (by decide)
  · exact (search_down_pull_one_up_no_consume
      (⟨[5, 7], some [9], 1⟩ : SearchCtx Nat)).2.2.2.1

/-- C9: for every digit sequence containing three consecutive `0`
digits, strict- and linear-mode derivation emits a bare `"*"` for each
zero after the first of the run, producing an invalid `".**"` shape, so
compiling the pattern fails (Python: "multiple repeat") instead of
returning a pattern. -/
theorem triple_zero_pattern_compile_error (xs ys : List (Fin 10)) (strict : Bool) :
    regex_compile (to_regex_linear ((xs ++ 0 :: 0 :: 0 :: ys).map digitChar) strict)
      = .error () := by
  have hmap : (xs ++ 0 :: 0 :: 0 :: ys).map digitChar
      = xs.map digitChar ++ '0' :: '0' :: '0' :: ys.map digitChar := by
    rw [List.map_append]
    rfl
  rw [hmap]
  set u1 := (xs.map digitChar).foldl ulin_step (⟨[], none, false⟩ : ULinState) with hu1
  set E := if u1.prev = some '0' then "*".toList else ".".toList with hE
  have hs1 : ulin_step u1 '0' = ⟨u1.units ++ [E], some '0', u1.has_slash⟩ :=
    ulin_step_zero u1
  have hs2 : ulin_step (ulin_step u1 '0') '0'
      = ⟨(u1.units ++ [E]) ++ ["*".toList], some '0', u1.has_slash⟩ := by
    rw [hs1, ulin_step_zero]
    simp
  have hs3 : ulin_step (ulin_step (ulin_step u1 '0') '0') '0'
      = ⟨((u1.units ++ [E]) ++ ["*".toList]) ++ ["*".toList], some '0', u1.has_slash⟩ := by
    rw [hs2, ulin_step_zero]
    simp
  obtain ⟨t, ht⟩ := ulin_foldl_units (ys.map digitChar)
    ⟨((u1.units ++ [E]) ++ ["*".toList]) ++ ["*".toList], some '0', u1.has_slash⟩
  have hfold : ((xs.map digitChar ++ '0' :: '0' :: '0' :: ys.map digitChar).foldl ulin_step
      (⟨[], none, false⟩ : ULinState)).units
      = (u1.units ++ [E]) ++ "*".toList :: "*".toList :: t := by
    rw [List.foldl_append]
    show ((ys.map digitChar).foldl ulin_step
      (ulin_step (ulin_step (ulin_step u1 '0') '0') '0')).units = _
    rw [hs3, ht]
    simp [List.append_assoc]
  have hmem : ∀ u ∈ (u1.units ++ [E]) ++ "*".toList :: "*".toList :: t, u ∈ UNIT_LIST := by
    rw [← hfold]
    exact ulin_foldl_mem _ _ (by intro u hu; cases hu)
  obtain ⟨pre, post, hpre, hpost, heq⟩ :=
    to_regex_linear_flatten (xs.map digitChar ++ '0' :: '0' :: '0' :: ys.map digitChar) strict
  rw [hfold] at heq
  rw [heq]
  have hrearr : pre ++ ((u1.units ++ [E]) ++ "*".toList :: "*".toList :: t) ++ post
      = (pre ++ (u1.units ++ [E])) ++ "*".toList :: "*".toList :: (t ++ post) := by
    simp [List.append_assoc]
  rw [hrearr]
  apply compile_flatten_star_star
  · intro u hu
    rcases List.mem_append.mp hu with hu | hu
    · exact hpre u hu
    · exact hmem u (List.mem_append_left _ hu)
  · intro u hu
    rcases List.mem_append.mp hu with hu | hu
    · exact hmem u (List.mem_append_right _ (List.Mem.tail _ (List.Mem.tail _ hu)))
    · exact hpost u hu

/-- C10: an enter-class event with the cursor at −1 does not report the
missing selection: with a non-empty materialized list Python's negative
indexing selects the last materialized entry, and with an empty list it
raises an uncaught `IndexError`. -/
theorem search_enter_cursor_minus_one {α : Type} (c : SearchCtx α) (h : c.index = -1) :
    (c.results = [] → search_enter_step c = .error ()) ∧
    (∀ e, c.results.getLast? = some e → search_enter_step c = .ok e) := by
  constructor
  · intro he
    simp [search_enter_step, list_getitem, h, he]
  · intro e he
    have hlen : 1 ≤ c.results.length := by
      cases hr : c.results with
      | nil => rw [hr] at he; simp at he
      | cons a l => simp [hr]
    simp only [search_enter_step, list_getitem, h]
    rw [if_pos (by norm_num : (-1 : Int) < 0)]
    rw [if_pos (by omega : (0 : Int) ≤ -1 + c.results.length)]
    have hnat : ((-1 : Int) + c.results.length).toNat = c.results.length - 1 := by omega
    rw [hnat]
    have hg : c.results.get? (c.results.length - 1) = some e := by
      rw [List.get?_eq_getElem?, ← List.getLast?_eq_getElem?]
      exact he
    rw [hg]

/-- Witness for C10 on concrete search states. -/
theorem search_enter_cursor_minus_one_witness :
    search_enter_step (⟨[3, 4], none, -1⟩ : SearchCtx Nat) = .ok 4 ∧
    search_enter_step (⟨([] : List Nat), none, -1⟩ : SearchCtx Nat) = .error () := by
  constructor
  · exact (search_enter_cursor_minus_one ⟨[3, 4], none, -1⟩ rfl).2 4 (by decide)
  · exact (search_enter_cursor_minus_one ⟨([] : List Nat), none, -1⟩ rfl).1 rfl

end MpdRemote
